import Mathlib

/-!
Verification of the MACD trading-strategy repository.

The development shallowly embeds the signal-generation, return/metrics,
optimization and risk-management code of the repository over exact rationals:

* `Enhanced_MACD_Strategy.py` (single-asset pandas pipeline):
  `calculate_macd`, `generate_signals`, `calculate_returns`,
  `calculate_metrics`, `objective_function`, `walk_forward_analysis`;
* `QuantConnect_Enhanced_MACD_Strategy.py` (streaming multi-asset algorithm):
  `CalculateEMA`, `UpdateMACDIndicators`, `CalculatePositionSize`,
  `ApplyRiskManagement`, the `objective` closure of `OptimizeETFParameters`;
* `QuantConnect_Simple_MACD_ETF.py`: `AdjustForVolatility`,
  `ApplyRiskManagement`.

Floating-point numbers are modelled as `ℚ` (the code's arithmetic on the
inputs considered is exact apart from rounding); pandas missing values (NaN)
are modelled as `Option ℚ` with `none` for NaN; Python exceptions are
modelled with `Except`.
-/

namespace MacdStrategy

/-- Model of pandas `Series.ewm(span=s).mean()` with the library defaults
`adjust=True`, `min_periods=0` (as called in `calculate_macd`):
output `y_t = (Σ_{j≤t} (1-a)^(t-j) x_j) / (Σ_{j≤t} (1-a)^(t-j))`, computed
online with a numerator and denominator accumulator.  A value is emitted for
every input index (no warm-up). -/
def ewmAux (a : ℚ) (num den : ℚ) : List ℚ → List ℚ
  | [] => []
  | x :: rest =>
      (x + (1 - a) * num) / (1 + (1 - a) * den) ::
        ewmAux a (x + (1 - a) * num) (1 + (1 - a) * den) rest

/-- pandas `ewm(span=s).mean()`: smoothing weight `a = 2 / (s + 1)`. -/
def ewmMean (span : ℚ) (xs : List ℚ) : List ℚ :=
  ewmAux (2 / (span + 1)) 0 0 xs

/-- Columns added by `EnhancedMACDStrategy.calculate_macd`
(`Enhanced_MACD_Strategy.py`, lines 51-70). -/
structure MacdFrame where
  macd : List ℚ
  signal : List ℚ
  histogram : List ℚ
deriving Repr, DecidableEq

/-- Embedding of `EnhancedMACDStrategy.calculate_macd`:
`ema_fast = Close.ewm(span=fast).mean()`, `ema_slow = Close.ewm(span=slow).mean()`,
`macd = ema_fast - ema_slow`, `signal = macd.ewm(span=signal_period).mean()`,
`histogram = macd - signal`. -/
def calculate_macd (close : List ℚ) (fast_period slow_period signal_period : ℚ) :
    MacdFrame :=
  let ema_fast := ewmMean fast_period close
  let ema_slow := ewmMean slow_period close
  let macd := List.zipWith (· - ·) ema_fast ema_slow
  let signal := ewmMean signal_period macd
  { macd := macd, signal := signal, histogram := List.zipWith (· - ·) macd signal }

/-- Body of the signal loop of `generate_signals` (lines 83-89): at index `i ≥ 1`
a bullish trigger (+1) fires when the MACD line crosses above the signal line
(`macd[i] > signal[i]` and `macd[i-1] <= signal[i-1]`), a bearish trigger (-1)
when it crosses below. -/
def crossover_trigger (prevMacd prevSig m s : ℚ) : ℚ :=
  if m > s ∧ prevMacd ≤ prevSig then 1
  else if m < s ∧ prevMacd ≥ prevSig then -1
  else 0

/-- The loop of `generate_signals` walks indices `1 .. len-1`, reading each
`(i-1, i)` pair of the macd and signal columns. -/
def signal_triggersAux : ℚ → ℚ → List ℚ → List ℚ → List ℚ
  | _, _, [], _ => []
  | _, _, _ :: _, [] => []
  | pm, ps, m :: mr, s :: sr => crossover_trigger pm ps m s :: signal_triggersAux m s mr sr

/-- The `signal_trigger` column of `generate_signals`: index 0 keeps the
initialized 0, later indices come from the crossover loop. -/
def signal_triggers (macd sig : List ℚ) : List ℚ :=
  match macd, sig with
  | [], _ => []
  | _ :: _, [] => []
  | m :: mr, s :: sr => 0 :: signal_triggersAux m s mr sr

/-- pandas `Series.cumsum()` (no NaN in the trigger column). -/
def cumsumAux (acc : ℚ) : List ℚ → List ℚ
  | [] => []
  | x :: rest => (acc + x) :: cumsumAux (acc + x) rest

/-- Running sum of a list, `y_i = Σ_{j≤i} x_j`. -/
def cumsum (xs : List ℚ) : List ℚ := cumsumAux 0 xs

/-- pandas `Series.clip(lo, hi)` applied entrywise. -/
def clip (lo hi x : ℚ) : ℚ := max lo (min x hi)

/-- Columns of the frame returned by `EnhancedMACDStrategy.generate_signals`
(`Enhanced_MACD_Strategy.py`, lines 72-95). -/
structure SignalsFrame where
  macd : List ℚ
  signal : List ℚ
  histogram : List ℚ
  signal_trigger : List ℚ
  position : List ℚ
deriving Repr, DecidableEq

/-- Embedding of `EnhancedMACDStrategy.generate_signals`: crossover triggers,
then `position = signal_trigger.cumsum().clip(-1, 1)`. -/
def generate_signals (close : List ℚ) (fast_period slow_period signal_period : ℚ) :
    SignalsFrame :=
  let f := calculate_macd close fast_period slow_period signal_period
  let trig := signal_triggers f.macd f.signal
  { macd := f.macd, signal := f.signal, histogram := f.histogram,
    signal_trigger := trig,
    position := (cumsum trig).map (clip (-1) 1) }

theorem clip_mem_Icc (y : ℚ) : -1 ≤ clip (-1) 1 y ∧ clip (-1) 1 y ≤ 1 := by
  constructor
  · exact le_max_left _ _
  · exact max_le (by norm_num) (min_le_right _ _)

/-- C5: every value of the `position` column produced by the cumulative-clip
policy of `generate_signals` lies within `[-1, +1]`, for every price series,
every parameter choice — and, first conjunct, for an arbitrary trigger
sequence fed through `cumsum`/`clip`. -/
theorem position_within_unit_interval :
    (∀ (trigs : List ℚ) (x : ℚ), x ∈ (cumsum trigs).map (clip (-1) 1) →
        -1 ≤ x ∧ x ≤ 1) ∧
    ∀ (close : List ℚ) (fast_period slow_period signal_period : ℚ) (x : ℚ),
      x ∈ (generate_signals close fast_period slow_period signal_period).position →
        -1 ≤ x ∧ x ≤ 1 := by
  constructor
  · intro trigs x hx
    obtain ⟨y, -, rfl⟩ := List.mem_map.mp hx
    exact clip_mem_Icc y
  · intro close fp sp sgp x hx
    obtain ⟨y, -, rfl⟩ := List.mem_map.mp hx
    exact clip_mem_Icc y

/-- Witness for `position_within_unit_interval` at a concrete input: the
flat two-point series produces position 0 at index 0, which the theorem
places inside `[-1, 1]`. -/
theorem position_within_unit_interval_witness :
    -1 ≤ (0 : ℚ) ∧ (0 : ℚ) ≤ 1 :=
  position_within_unit_interval.2 [1, 1] 12 26 9 0 (by
    have h : (generate_signals [1, 1] 12 26 9).position = [0, 0] := by
      norm_num [generate_signals, calculate_macd, ewmMean, ewmAux,
        signal_triggers, signal_triggersAux, crossover_trigger,
        cumsum, cumsumAux, clip]
    rw [h]; simp)

/-- pandas `Series.pct_change()` tail: element `i` of the result is
`xs[i] / prev_i - 1` where `prev_i` is the preceding value. -/
def pct_changeAux : ℚ → List ℚ → List (Option ℚ)
  | _, [] => []
  | prev, x :: rest => some (x / prev - 1) :: pct_changeAux x rest

/-- pandas `Series.pct_change()`: NaN at index 0, then `x[i]/x[i-1] - 1`. -/
def pct_change (xs : List ℚ) : List (Option ℚ) :=
  match xs with
  | [] => []
  | x :: rest => none :: pct_changeAux x rest

/-- pandas `Series.diff()` tail. -/
def diffAux : ℚ → List ℚ → List (Option ℚ)
  | _, [] => []
  | prev, x :: rest => some (x - prev) :: diffAux x rest

/-- pandas `Series.diff()`: NaN at index 0, then `x[i] - x[i-1]`. -/
def diff1 (xs : List ℚ) : List (Option ℚ) :=
  match xs with
  | [] => []
  | x :: rest => none :: diffAux x rest

/-- pandas `Series.shift(1)`: NaN at index 0, then `x[i-1]`. -/
def shift1 (xs : List ℚ) : List (Option ℚ) :=
  match xs with
  | [] => []
  | _ :: _ => none :: xs.dropLast.map some

/-- NaN-propagating product of two pandas series entries. -/
def nanMul : Option ℚ → Option ℚ → Option ℚ
  | some a, some b => some (a * b)
  | _, _ => none

/-- NaN-propagating difference of two pandas series entries. -/
def nanSub : Option ℚ → Option ℚ → Option ℚ
  | some a, some b => some (a - b)
  | _, _ => none

/-- pandas `Series.cumprod()` with the default `skipna=True`: NaN entries stay
NaN and do not poison the running product of the defined entries. -/
def cumprodAux (acc : ℚ) : List (Option ℚ) → List (Option ℚ)
  | [] => []
  | none :: rest => none :: cumprodAux acc rest
  | some x :: rest => some (acc * x) :: cumprodAux (acc * x) rest

/-- Running product of a pandas series, skipping NaN. -/
def cumprodSkipNa (xs : List (Option ℚ)) : List (Option ℚ) := cumprodAux 1 xs

/-- Columns of the frame returned by `EnhancedMACDStrategy.calculate_returns`
(`Enhanced_MACD_Strategy.py`, lines 97-121). -/
structure ReturnsFrame where
  market_return : List (Option ℚ)
  position_change : List (Option ℚ)
  transaction_costs : List (Option ℚ)
  strategy_return : List (Option ℚ)
  market_cumulative : List (Option ℚ)
  strategy_cumulative : List (Option ℚ)
deriving Repr, DecidableEq

/-- Embedding of `EnhancedMACDStrategy.calculate_returns`:
`market_return = Close.pct_change()`,
`position_change = position.diff().abs()`,
`transaction_costs = position_change * transaction_cost`,
`strategy_return = position.shift(1) * market_return - transaction_costs`,
cumulative curves are `(1 + r).cumprod()`. -/
def calculate_returns (position close : List ℚ) (transaction_cost : ℚ) :
    ReturnsFrame :=
  let market_return := pct_change close
  let position_change := (diff1 position).map (Option.map (|·|))
  let transaction_costs := position_change.map (Option.map (· * transaction_cost))
  let strategy_return :=
    List.zipWith nanSub (List.zipWith nanMul (shift1 position) market_return)
      transaction_costs
  { market_return := market_return,
    position_change := position_change,
    transaction_costs := transaction_costs,
    strategy_return := strategy_return,
    market_cumulative := cumprodSkipNa (market_return.map (Option.map (1 + ·))),
    strategy_cumulative := cumprodSkipNa (strategy_return.map (Option.map (1 + ·))) }

theorem pct_changeAux_getElem? (rest : List ℚ) :
    ∀ (x : ℚ) (i : Nat) (h : i < rest.length),
      (pct_changeAux x rest)[i]? =
        some (some ((x :: rest).get ⟨i + 1, Nat.succ_lt_succ h⟩ /
              (x :: rest).get ⟨i, Nat.lt_succ_of_lt h⟩ - 1)) := by
  induction rest with
  | nil => intro x i h; simp at h
  | cons y rest' ih =>
    intro x i h
    cases i with
    | zero => simp [pct_changeAux]
    | succ j =>
      have hj : j < rest'.length := by simpa using h
      simpa [pct_changeAux] using ih y j hj

theorem pct_change_getElem? (xs : List ℚ) (i : Nat) (h : i + 1 < xs.length) :
    (pct_change xs)[i + 1]? =
      some (some (xs.get ⟨i + 1, h⟩ / xs.get ⟨i, Nat.lt_of_succ_lt h⟩ - 1)) := by
  cases xs with
  | nil => simp at h
  | cons x rest =>
    have hi : i < rest.length := by simpa using h
    simpa [pct_change] using pct_changeAux_getElem? rest x i hi

theorem diffAux_getElem? (rest : List ℚ) :
    ∀ (x : ℚ) (i : Nat) (h : i < rest.length),
      (diffAux x rest)[i]? =
        some (some ((x :: rest).get ⟨i + 1, Nat.succ_lt_succ h⟩ -
              (x :: rest).get ⟨i, Nat.lt_succ_of_lt h⟩)) := by
  induction rest with
  | nil => intro x i h; simp at h
  | cons y rest' ih =>
    intro x i h
    cases i with
    | zero => simp [diffAux]
    | succ j =>
      have hj : j < rest'.length := by simpa using h
      simpa [diffAux] using ih y j hj

theorem diff1_getElem? (xs : List ℚ) (i : Nat) (h : i + 1 < xs.length) :
    (diff1 xs)[i + 1]? =
      some (some (xs.get ⟨i + 1, h⟩ - xs.get ⟨i, Nat.lt_of_succ_lt h⟩)) := by
  cases xs with
  | nil => simp at h
  | cons x rest =>
    have hi : i < rest.length := by simpa using h
    simpa [diff1] using diffAux_getElem? rest x i hi

theorem shift1_getElem? (xs : List ℚ) (i : Nat) (h : i + 1 < xs.length) :
    (shift1 xs)[i + 1]? = some (some (xs.get ⟨i, Nat.lt_of_succ_lt h⟩)) := by
  cases xs with
  | nil => simp at h
  | cons x rest =>
    have hi : i < ((x :: rest).dropLast).length := by
      simp only [List.length_dropLast, List.length_cons]
      simpa using h
    simp only [shift1, List.getElem?_cons_succ, List.getElem?_map,
      List.getElem?_eq_getElem hi, List.getElem_dropLast, Option.map_some',
      List.get_eq_getElem]

/-- C2: the `strategy_return` column of `calculate_returns` at step `i ≥ 1`
equals `position[i-1] * marketReturn[i] - transactionCost * |position[i] -
position[i-1]|` (position lagged by one), and — second conjunct — replacing
the price series by any series that agrees up to index `i` (in particular,
altering the price at step `i+1`) leaves the strategy return at step `i`
unchanged. -/
theorem strategy_return_getElem? (position close : List ℚ) (tc : ℚ) (k : Nat)
    (hlen : position.length = close.length) (h2 : k + 1 < close.length) :
    ((calculate_returns position close tc).strategy_return)[k + 1]? =
      some (some (position.get ⟨k, by omega⟩ *
              (close.get ⟨k + 1, by omega⟩ / close.get ⟨k, by omega⟩ - 1) -
            tc * |position.get ⟨k + 1, by omega⟩ - position.get ⟨k, by omega⟩|)) := by
  have hp2 : k + 1 < position.length := by omega
  have hmr := pct_change_getElem? close k h2
  have hsh := shift1_getElem? position k hp2
  have hdf := diff1_getElem? position k hp2
  simp only [calculate_returns]
  rw [List.getElem?_zipWith' (f := nanSub), List.getElem?_zipWith' (f := nanMul),
    List.getElem?_map, List.getElem?_map, hmr, hsh, hdf]
  simp only [Option.map_some', Option.some_bind, nanMul, nanSub,
    Option.bind_some, Option.bind_eq_bind]
  congr 2
  ring

/-- C2: the `strategy_return` column of `calculate_returns` at step `i ≥ 1`
equals `position[i-1] * marketReturn[i] - transactionCost * |position[i] -
position[i-1]|` (position lagged by one period), and — second conjunct —
replacing the price series by any series that agrees with it up to index `i`
(in particular, altering the price at step `i+1`) leaves the strategy return
at step `i` unchanged. -/
theorem strategy_return_lagged_formula (position close : List ℚ) (tc : ℚ)
    (i : Nat) (hlen : position.length = close.length) (h1 : 1 ≤ i)
    (h2 : i < close.length) :
    ((calculate_returns position close tc).strategy_return)[i]? =
      some (some (position.get ⟨i - 1, by omega⟩ *
              (close.get ⟨i, by omega⟩ / close.get ⟨i - 1, by omega⟩ - 1) -
            tc * |position.get ⟨i, by omega⟩ - position.get ⟨i - 1, by omega⟩|)) ∧
    ∀ close' : List ℚ, close'.length = close.length →
      (∀ j : Nat, j ≤ i → close'[j]? = close[j]?) →
      ((calculate_returns position close' tc).strategy_return)[i]? =
        ((calculate_returns position close tc).strategy_return)[i]? := by
  obtain ⟨k, rfl⟩ : ∃ k, i = k + 1 := ⟨i - 1, by omega⟩
  have hfor := strategy_return_getElem? position close tc k hlen h2
  refine ⟨by simpa using hfor, ?_⟩
  intro close' hlen' hagree
  have h2' : k + 1 < close'.length := by omega
  have e1 : close'.get ⟨k + 1, h2'⟩ = close.get ⟨k + 1, h2⟩ := by
    have h := hagree (k + 1) (le_refl _)
    rw [List.getElem?_eq_getElem h2', List.getElem?_eq_getElem h2] at h
    simpa using h
  have e0 : close'.get ⟨k, Nat.lt_of_succ_lt h2'⟩ =
      close.get ⟨k, Nat.lt_of_succ_lt h2⟩ := by
    have h := hagree k (by omega)
    rw [List.getElem?_eq_getElem (Nat.lt_of_succ_lt h2'),
      List.getElem?_eq_getElem (Nat.lt_of_succ_lt h2)] at h
    simpa using h
  have hfor' := strategy_return_getElem? position close' tc k (by omega) h2'
  rw [hfor, hfor']
  simp only [List.get_eq_getElem] at e0 e1 ⊢
  rw [e0, e1]

/-- Witness for `strategy_return_lagged_formula` at a concrete input:
position `[0, 1]`, prices `[10, 11]`, transaction cost `1/1000`, step `i = 1`:
the strategy return is `0 * (11/10 - 1) - (1/1000) * |1 - 0| = -1/1000`. -/
theorem strategy_return_lagged_formula_witness :
    ((calculate_returns [0, 1] [10, 11] (1 / 1000)).strategy_return)[1]? =
      some (some (-(1 / 1000 : ℚ))) := by
  have h := (strategy_return_lagged_formula [0, 1] [10, 11] (1 / 1000) 1
    (by simp) (le_refl 1) (by simp)).1
  norm_num at h
  exact h

/-- Embedding of `EnhancedMACDETFStrategy.CalculateEMA`
(`QuantConnect_Enhanced_MACD_Strategy.py`, lines 157-168): returns `None` when
fewer than `period` prices are available; otherwise seeds with `prices[0]` and
folds `ema = price * m + ema * (1 - m)`, `m = 2 / (period + 1)`, over the tail.
The `[]` arm below is reachable only for `period = 0`, where the source raises
`IndexError` at `prices[0]`; all theorems assume `period ≥ 1`, for which that
arm is dead code. -/
def CalculateEMA (prices : List ℚ) (period : Nat) : Option ℚ :=
  if prices.length < period then none
  else
    match prices with
    | [] => none
    | p :: rest =>
        some (rest.foldl
          (fun ema price =>
            price * (2 / ((period : ℚ) + 1)) + ema * (1 - 2 / ((period : ℚ) + 1)))
          p)

theorem foldl_ema_bounds (m lo hi : ℚ) (hm0 : 0 ≤ m) (hm1 : m ≤ 1) :
    ∀ (rest : List ℚ) (e : ℚ), lo ≤ e → e ≤ hi →
      (∀ x ∈ rest, lo ≤ x ∧ x ≤ hi) →
      lo ≤ rest.foldl (fun ema price => price * m + ema * (1 - m)) e ∧
        rest.foldl (fun ema price => price * m + ema * (1 - m)) e ≤ hi := by
  intro rest
  induction rest with
  | nil => intro e he1 he2 _; exact ⟨he1, he2⟩
  | cons x r ih =>
    intro e he1 he2 hmem
    obtain ⟨hx1, hx2⟩ := hmem x (List.mem_cons_self x r)
    have hlo : lo ≤ x * m + e * (1 - m) := by
      have a : lo * m ≤ x * m := mul_le_mul_of_nonneg_right hx1 hm0
      have b : lo * (1 - m) ≤ e * (1 - m) :=
        mul_le_mul_of_nonneg_right he1 (by linarith)
      nlinarith
    have hhi : x * m + e * (1 - m) ≤ hi := by
      have a : x * m ≤ hi * m := mul_le_mul_of_nonneg_right hx2 hm0
      have b : e * (1 - m) ≤ hi * (1 - m) :=
        mul_le_mul_of_nonneg_right he2 (by linarith)
      nlinarith
    simpa using ih (x * m + e * (1 - m)) hlo hhi
      (fun y hy => hmem y (List.mem_cons_of_mem x hy))

theorem foldl_ema_const (m c : ℚ) :
    ∀ k : Nat, (List.replicate k c).foldl
      (fun ema price => price * m + ema * (1 - m)) c = c := by
  intro k
  induction k with
  | zero => rfl
  | succ n ih =>
    rw [List.replicate_succ, List.foldl_cons]
    have : c * m + c * (1 - m) = c := by ring
    rw [this, ih]

/-- C10: for every `period ≥ 1`, `CalculateEMA` returns `None` exactly when
fewer than `period` prices are supplied; any returned value is a convex
combination of the inputs and hence lies between every lower and upper bound
of the price list; and on a constant price list it returns that constant. -/
theorem CalculateEMA_spec (period : Nat) (hp : 1 ≤ period) :
    (∀ prices : List ℚ, (CalculateEMA prices period = none ↔
        prices.length < period)) ∧
    (∀ (prices : List ℚ) (lo hi : ℚ), (∀ x ∈ prices, lo ≤ x ∧ x ≤ hi) →
      ∀ q : ℚ, CalculateEMA prices period = some q → lo ≤ q ∧ q ≤ hi) ∧
    (∀ (c : ℚ) (n : Nat), period ≤ n →
      CalculateEMA (List.replicate n c) period = some c) := by
  have hm0 : 0 ≤ 2 / ((period : ℚ) + 1) := by positivity
  have hm1 : 2 / ((period : ℚ) + 1) ≤ 1 := by
    rw [div_le_one (by positivity)]
    have : (1 : ℚ) ≤ (period : ℚ) := by exact_mod_cast hp
    linarith
  refine ⟨?_, ?_, ?_⟩
  · intro prices
    by_cases hl : prices.length < period
    · simp [CalculateEMA, hl]
    · cases prices with
      | nil => simp at hl; omega
      | cons p rest => simp [CalculateEMA, hl]
  · intro prices lo hi hmem q hq
    by_cases hl : prices.length < period
    · simp [CalculateEMA, hl] at hq
    · cases prices with
      | nil => simp at hl; omega
      | cons p rest =>
        simp only [CalculateEMA, if_neg hl, Option.some_inj] at hq
        subst hq
        exact foldl_ema_bounds _ lo hi hm0 hm1 rest p
          (hmem p (List.mem_cons_self p rest)).1
          (hmem p (List.mem_cons_self p rest)).2
          (fun y hy => hmem y (List.mem_cons_of_mem p hy))
  · intro c n hn
    obtain ⟨k, rfl⟩ : ∃ k, n = k + 1 := ⟨n - 1, by omega⟩
    rw [List.replicate_succ]
    have hl : ¬ ((c :: List.replicate k c).length < period) := by
      simp only [List.length_cons, List.length_replicate]; omega
    simp only [CalculateEMA, if_neg hl]
    rw [foldl_ema_const]

/-- Witness for `CalculateEMA_spec` at concrete inputs: with `period = 2`,
a one-element list yields `None`, the value on `[1, 3]` (namely `7/3`) stays
inside `[1, 3]`, and a constant list `[5, 5]` yields `5`. -/
theorem CalculateEMA_spec_witness :
    CalculateEMA [4] 2 = none ∧ (1 ≤ (7 : ℚ) / 3 ∧ (7 : ℚ) / 3 ≤ 3) ∧
      CalculateEMA (List.replicate 2 5) 2 = some 5 := by
  refine ⟨((CalculateEMA_spec 2 (by norm_num)).1 [4]).mpr (by simp), ?_, ?_⟩
  · refine (CalculateEMA_spec 2 (by norm_num)).2.1 [1, 3] 1 3 ?_ (7 / 3) ?_
    · intro x hx
      rcases List.mem_cons.mp hx with rfl | hx'
      · norm_num
      · rcases List.mem_singleton.mp hx' with rfl
        norm_num
    · norm_num [CalculateEMA]
  · exact (CalculateEMA_spec 2 (by norm_num)).2.2 5 2 (le_refl 2)

/-- Modelled from the spec (section 4.1): numerator of the exponentially
weighted mean with smoothing weight `a` — the recursion
`num 0 = x 0`, `num (t+1) = x (t+1) + (1-a) * num t`, so that
`num t = Σ_{j≤t} (1-a)^(t-j) x j`.  Used as the specification-side
definition against which the source's `ewm` output is compared. -/
def emaAdjNum (a : ℚ) (xs : List ℚ) : Nat → ℚ
  | 0 => xs.getD 0 0
  | t + 1 => xs.getD (t + 1) 0 + (1 - a) * emaAdjNum a xs t

/-- Modelled from the spec: denominator of the exponentially weighted mean,
`den t = Σ_{k≤t} (1-a)^k`. -/
def emaAdjDen (a : ℚ) : Nat → ℚ
  | 0 => 1
  | t + 1 => 1 + (1 - a) * emaAdjDen a t

/-- Modelled from the spec: the exponentially weighted mean of `xs` at index
`t` with smoothing weight `a` (pandas `adjust=True` normalization). -/
def emaAdj (a : ℚ) (xs : List ℚ) (t : Nat) : ℚ :=
  emaAdjNum a xs t / emaAdjDen a t

theorem emaAdjNum_cons (a x : ℚ) (r : List ℚ) :
    ∀ t : Nat, emaAdjNum a (x :: r) (t + 1) =
      emaAdjNum a r t + (1 - a) ^ (t + 1) * x := by
  intro t
  induction t with
  | zero => simp [emaAdjNum, pow_one]
  | succ u ih =>
    show (x :: r).getD (u + 2) 0 + (1 - a) * emaAdjNum a (x :: r) (u + 1) = _
    rw [ih, List.getD_cons_succ]
    show r.getD (u + 1) 0 + _ = emaAdjNum a r (u + 1) + _
    rw [show emaAdjNum a r (u + 1) = r.getD (u + 1) 0 + (1 - a) * emaAdjNum a r u
      from rfl]
    ring

theorem emaAdjDen_succ (a : ℚ) :
    ∀ t : Nat, emaAdjDen a (t + 1) = emaAdjDen a t + (1 - a) ^ (t + 1) := by
  intro t
  induction t with
  | zero => simp [emaAdjDen, pow_one]
  | succ u ih =>
    calc emaAdjDen a (u + 1 + 1)
        = 1 + (1 - a) * emaAdjDen a (u + 1) := rfl
      _ = 1 + (1 - a) * (emaAdjDen a u + (1 - a) ^ (u + 1)) := by rw [ih]
      _ = (1 + (1 - a) * emaAdjDen a u) + (1 - a) ^ (u + 1 + 1) := by ring
      _ = emaAdjDen a (u + 1) + (1 - a) ^ (u + 1 + 1) := rfl

theorem ewmAux_getElem? (a : ℚ) :
    ∀ (xs : List ℚ) (num den : ℚ) (t : Nat), t < xs.length →
      (ewmAux a num den xs)[t]? =
        some ((emaAdjNum a xs t + (1 - a) ^ (t + 1) * num) /
              (emaAdjDen a t + (1 - a) ^ (t + 1) * den)) := by
  intro xs
  induction xs with
  | nil => intro num den t h; simp at h
  | cons x r ih =>
    intro num den t h
    cases t with
    | zero =>
      simp only [ewmAux, List.getElem?_cons_zero, Option.some_inj]
      simp [emaAdjNum, emaAdjDen, pow_one]
    | succ u =>
      have hu : u < r.length := by simpa using h
      simp only [ewmAux, List.getElem?_cons_succ]
      rw [ih (x + (1 - a) * num) (1 + (1 - a) * den) u hu]
      rw [emaAdjNum_cons, emaAdjDen_succ]
      congr 1
      have hpow : (1 - a) ^ (u + 1 + 1) = (1 - a) ^ (u + 1) * (1 - a) := by ring
      rw [hpow]
      ring_nf

/-- Refinement: every entry of the source's `ewm(span=s).mean()` model equals
the spec-side exponentially weighted mean with weight `a = 2/(s+1)`. -/
theorem ewmMean_eq_emaAdj (span : ℚ) (xs : List ℚ) (t : Nat)
    (h : t < xs.length) :
    (ewmMean span xs)[t]? = some (emaAdj (2 / (span + 1)) xs t) := by
  rw [ewmMean, ewmAux_getElem? _ xs 0 0 t h, emaAdj]
  simp

/-- Per-ETF indicator state kept in the `self.etfs[symbol]` dictionary of
`EnhancedMACDETFStrategy` (`QuantConnect_Enhanced_MACD_Strategy.py`). -/
structure EtfIndicatorState where
  price_history : List ℚ
  macd : Option ℚ
  ema_fast : Option ℚ
  ema_slow : Option ℚ
  signal_line : Option ℚ
deriving Repr, DecidableEq

/-- Embedding of `EnhancedMACDETFStrategy.UpdateMACDIndicators` (lines
131-155): when at least `slow_period` prices are available, compute the fast
and slow EMAs, set the MACD line, and update the signal line by the fixed
rule `signal_line = macd * 0.1 + (signal_line or 0) * 0.9`.  The unpacked
`signal_period` of `optimal_params` is never used by this update. -/
def UpdateMACDIndicators (etf : EtfIndicatorState)
    (fast_period slow_period signal_period : Nat) : EtfIndicatorState :=
  if slow_period ≤ etf.price_history.length then
    match CalculateEMA etf.price_history fast_period,
          CalculateEMA etf.price_history slow_period with
    | some ema_fast, some ema_slow =>
        { etf with
          macd := some (ema_fast - ema_slow),
          ema_fast := some ema_fast,
          ema_slow := some ema_slow,
          signal_line := some ((ema_fast - ema_slow) * (1 / 10) +
            (etf.signal_line.getD 0) * (9 / 10)) }
    | _, _ => etf
  else etf

/-- Counterexample to C4: with `signal_period = 9` the spec's EMA weight is
`2/(9+1) = 1/5`, but the multi-asset signal-line update applies the fixed
weight `1/10`.  Concretely, a MACD value of `0` blended into a previous
signal line of `1` yields `9/10`, while an EMA(9) update would yield `4/5`. -/
theorem signal_line_not_ema_of_signal_period :
    (UpdateMACDIndicators
        { price_history := [5], macd := none, ema_fast := none,
          ema_slow := none, signal_line := some 1 } 1 1 9).signal_line =
      some (9 / 10) ∧
    (9 / 10 : ℚ) ≠ 0 * (2 / (9 + 1)) + 1 * (1 - 2 / (9 + 1)) := by
  constructor
  · norm_num [UpdateMACDIndicators, CalculateEMA]
  · norm_num

/-- C4 (amended): the single-asset `calculate_macd` signal line is the
exponentially weighted mean of the MACD column with smoothing weight
`2/(signalPeriod+1)` (so it depends on the configured signal period), while
the multi-asset `UpdateMACDIndicators` signal line is independent of the
configured `signal_period` — its smoothing weight is the fixed `1/10`. -/
theorem signal_line_smoothing :
    (∀ (close : List ℚ) (fp sp sgp : ℚ) (t : Nat),
      t < (calculate_macd close fp sp sgp).macd.length →
      ((calculate_macd close fp sp sgp).signal)[t]? =
        some (emaAdj (2 / (sgp + 1)) ((calculate_macd close fp sp sgp).macd) t)) ∧
    (∀ (etf : EtfIndicatorState) (fast_period slow_period sgp sgp' : Nat),
      UpdateMACDIndicators etf fast_period slow_period sgp =
        UpdateMACDIndicators etf fast_period slow_period sgp') := by
  constructor
  · intro close fp sp sgp t h
    exact ewmMean_eq_emaAdj sgp ((calculate_macd close fp sp sgp).macd) t h
  · intro etf f s sgp sgp'
    rfl

/-- Witness for `signal_line_smoothing` at a concrete input: for the
two-point series `[1, 2]` and the default parameters the signal line at
index 0 equals the spec EMA of the MACD column at index 0. -/
theorem signal_line_smoothing_witness :
    ((calculate_macd [1, 2] 12 26 9).signal)[0]? =
      some (emaAdj (2 / (9 + 1)) ((calculate_macd [1, 2] 12 26 9).macd) 0) :=
  signal_line_smoothing.1 [1, 2] 12 26 9 0 (by
    norm_num [calculate_macd, ewmMean, ewmAux])

theorem length_ewmAux (a : ℚ) :
    ∀ (xs : List ℚ) (num den : ℚ), (ewmAux a num den xs).length = xs.length := by
  intro xs
  induction xs with
  | nil => intro num den; rfl
  | cons x r ih => intro num den; simp [ewmAux, ih]

theorem length_ewmMean (span : ℚ) (xs : List ℚ) :
    (ewmMean span xs).length = xs.length :=
  length_ewmAux _ xs 0 0

theorem length_macd_col (close : List ℚ) (fp sp sgp : ℚ) :
    (calculate_macd close fp sp sgp).macd.length = close.length := by
  simp [calculate_macd, List.length_zipWith, length_ewmMean]

theorem length_signal_col (close : List ℚ) (fp sp sgp : ℚ) :
    (calculate_macd close fp sp sgp).signal.length = close.length := by
  simp [calculate_macd, length_ewmMean, List.length_zipWith]

theorem length_signal_triggersAux :
    ∀ (mr : List ℚ) (pm ps : ℚ) (sr : List ℚ),
      (signal_triggersAux pm ps mr sr).length = min mr.length sr.length := by
  intro mr
  induction mr with
  | nil => intro pm ps sr; simp [signal_triggersAux]
  | cons m mr' ih =>
    intro pm ps sr
    cases sr with
    | nil => simp [signal_triggersAux]
    | cons s sr' =>
      simp only [signal_triggersAux, List.length_cons, ih]
      omega

theorem length_signal_triggers (macd sig : List ℚ)
    (h : macd.length = sig.length) :
    (signal_triggers macd sig).length = macd.length := by
  cases macd with
  | nil => rfl
  | cons m mr =>
    cases sig with
    | nil => simp at h
    | cons s sr =>
      simp only [signal_triggers, List.length_cons, length_signal_triggersAux]
      simp only [List.length_cons] at h
      omega

theorem length_cumsumAux :
    ∀ (xs : List ℚ) (acc : ℚ), (cumsumAux acc xs).length = xs.length := by
  intro xs
  induction xs with
  | nil => intro acc; rfl
  | cons x r ih => intro acc; simp [cumsumAux, ih]

theorem length_position_col (close : List ℚ) (fp sp sgp : ℚ) :
    (generate_signals close fp sp sgp).position.length = close.length := by
  have h := length_signal_triggers
    (calculate_macd close fp sp sgp).macd (calculate_macd close fp sp sgp).signal
    (by rw [length_macd_col, length_signal_col])
  simp only [generate_signals, List.length_map, cumsum, length_cumsumAux]
  rw [h, length_macd_col]

/-- C3 (amended): the single-asset Indicator Engine never flags "not ready":
`calculate_macd` (pandas `ewm` with `min_periods=0`) emits one numeric MACD,
signal and histogram value for every input timestamp — also when the series
is shorter than `slowPeriod` — and `generate_signals` emits a full-length
position series, which need not be flat (see the counterexample). -/
theorem short_series_indicator_total :
    ∀ (close : List ℚ) (fp sp sgp : ℚ),
      (calculate_macd close fp sp sgp).macd.length = close.length ∧
      (calculate_macd close fp sp sgp).signal.length = close.length ∧
      (generate_signals close fp sp sgp).position.length = close.length :=
  fun close fp sp sgp =>
    ⟨length_macd_col close fp sp sgp, length_signal_col close fp sp sgp,
      length_position_col close fp sp sgp⟩

/-- The degenerate scenario of C3: a price series of length 10. -/
def ex10 : List ℚ := [10, 11, 11, 11, 11, 11, 11, 11, 11, 11]

set_option maxHeartbeats 4000000 in
/-- Counterexample to C3: on the length-10 series `ex10` with
`slowPeriod = 26` the Indicator Engine emits numeric values (no "not ready"
flag exists in `calculate_macd`) and `generate_signals` emits position `1`
at index 1 — the position series is not all-flat. -/
theorem short_series_not_flat :
    ex10.length = 10 ∧ ((10 : Nat) < 26) ∧
      ((generate_signals ex10 12 26 9).position)[1]? = some 1 := by
  refine ⟨rfl, by norm_num, ?_⟩
  norm_num [ex10, generate_signals, calculate_macd, ewmMean, ewmAux,
    signal_triggers, signal_triggersAux, crossover_trigger,
    cumsum, cumsumAux, clip]

/-- Python exception classes raised by `calculate_metrics` on degenerate
input. -/
inductive PyErr where
  | indexError : PyErr
  | zeroDivisionError : PyErr
deriving Repr, DecidableEq

/-- pandas `Series.dropna()`. -/
def dropna (xs : List (Option ℚ)) : List ℚ := xs.filterMap id

/-- Lines 133-134 of `calculate_metrics`: `cumulative.iloc[-1] - 1`.
pandas `iloc[-1]` raises `IndexError` on an empty series; on a NaN entry the
subtraction propagates NaN. -/
def iloc_last_sub_one (cumulative : List (Option ℚ)) : Except PyErr (Option ℚ) :=
  match cumulative.getLast? with
  | none => Except.error PyErr.indexError
  | some v => Except.ok (v.map (· - 1))

/-- Line 135: the annualization exponent `252 / len(strategy_returns)`;
Python integer division by zero raises `ZeroDivisionError` when the
dropna'd strategy-return series is empty. -/
def annual_return_exponent (strategy_returns : List ℚ) : Except PyErr ℚ :=
  if strategy_returns.length = 0 then Except.error PyErr.zeroDivisionError
  else Except.ok (252 / (strategy_returns.length : ℚ))

/-- Line 139: `sharpe_ratio = annual_return / volatility if volatility > 0
else 0`. -/
def sharpe_ratio_calc (annual_return volatility : ℚ) : ℚ :=
  if volatility > 0 then annual_return / volatility else 0

/-- Lines 147-148: fraction of strictly positive returns, `0` when no
return is defined. -/
def win_rate_calc (strategy_returns : List ℚ) : ℚ :=
  if 0 < strategy_returns.length then
    ((strategy_returns.filter (fun r => 0 < r)).length : ℚ) /
      (strategy_returns.length : ℚ)
  else 0

/-- Sample mean of a list. -/
def qMean (xs : List ℚ) : ℚ := xs.sum / (xs.length : ℚ)

/-- Entries centered at the sample mean. -/
def centered (xs : List ℚ) : List ℚ := xs.map (fun x => x - qMean xs)

/-- Numerator of `np.cov(xs, ys)[0, 1]`; the common `1/(n-1)` factor of
covariance and variance cancels in the beta quotient. -/
def sampleCovNum (xs ys : List ℚ) : ℚ :=
  (List.zipWith (· * ·) (centered xs) (centered ys)).sum

/-- Numerator of `market_returns.var()` (pandas, `ddof = 1`). -/
def sampleVarNum (ys : List ℚ) : ℚ :=
  ((centered ys).map (fun y => y ^ 2)).sum

/-- Lines 151-156 of `calculate_metrics`: `beta = cov / var`, guarded by
`len(market_returns) > 0 and market_returns.std() > 0`, else `0`.  Over the
reals `std > 0` iff the centered square sum is positive (for a single
sample pandas gives `std = NaN` and `NaN > 0` is false, which coincides
with the centered square sum being `0`). -/
def beta_calc (strategy_returns market_returns : List ℚ) : ℚ :=
  if 0 < market_returns.length ∧ 0 < sampleVarNum market_returns then
    sampleCovNum strategy_returns market_returns / sampleVarNum market_returns
  else 0

/-- Exception behaviour of `calculate_metrics` (lines 123-158) in source
order: line 133 reads `strategy_cumulative.iloc[-1]`, line 134 reads
`market_cumulative.iloc[-1]`, line 135 divides by `len(strategy_returns)`;
the guarded metrics (sharpe, win rate, beta) never raise. -/
def calculate_metrics_flow (strategy_cumulative market_cumulative : List (Option ℚ))
    (strategy_return : List (Option ℚ)) : Except PyErr Unit := do
  let _ ← iloc_last_sub_one strategy_cumulative
  let _ ← iloc_last_sub_one market_cumulative
  let _ ← annual_return_exponent (dropna strategy_return)
  Except.ok ()

/-- Counterexample to C7: `calculate_metrics` can raise.  On a one-row frame
whose strategy return is missing (NaN), the dropna'd return series is empty
and line 135 (`252 / len(...)`) raises `ZeroDivisionError`. -/
theorem calculate_metrics_raises_on_all_missing :
    calculate_metrics_flow [some 1] [some 1] [none] =
      Except.error PyErr.zeroDivisionError := by
  rfl

/-- C7 (amended): the division guards of `calculate_metrics` hold — zero
volatility gives `sharpe_ratio = 0`, an empty market series or zero market
variance gives `beta = 0`, an empty return series gives `win_rate = 0` —
but the function is not total on an empty or all-missing frame: an empty
frame raises `IndexError` at `iloc[-1]`, and a one-row all-missing frame
raises `ZeroDivisionError` at the annualization exponent. -/
theorem calculate_metrics_guards :
    (∀ a : ℚ, sharpe_ratio_calc a 0 = 0) ∧
    (∀ sr : List ℚ, beta_calc sr [] = 0) ∧
    (∀ sr mr : List ℚ, sampleVarNum mr = 0 → beta_calc sr mr = 0) ∧
    win_rate_calc [] = 0 ∧
    calculate_metrics_flow [] [] [] = Except.error PyErr.indexError ∧
    calculate_metrics_flow [none] [none] [none] =
      Except.error PyErr.zeroDivisionError := by
  refine ⟨?_, ?_, ?_, ?_, rfl, rfl⟩
  · intro a; simp [sharpe_ratio_calc]
  · intro sr; simp [beta_calc]
  · intro sr mr h; simp [beta_calc, h]
  · simp [win_rate_calc]

/-- Witness for `calculate_metrics_guards` at a concrete input: a
single-sample market series has zero centered square sum, so beta is 0. -/
theorem calculate_metrics_guards_witness : beta_calc [1] [2] = 0 :=
  calculate_metrics_guards.2.2.1 [1] [2] (by
    norm_num [sampleVarNum, centered, qMean])

/-- Scores seen by `scipy.optimize.minimize`: `-np.inf`, `+np.inf`, or a
finite float. -/
inductive Score where
  | negInf : Score
  | posInf : Score
  | finite : ℚ → Score
deriving Repr, DecidableEq

/-- Order on minimizer scores: `negInf` is the least element (the most
attractive score for a minimizer), `posInf` the greatest (the worst). -/
def Score.leb : Score → Score → Bool
  | Score.negInf, _ => true
  | _, Score.posInf => true
  | Score.finite a, Score.finite b => decide (a ≤ b)
  | _, _ => false

/-- Embedding of `EnhancedMACDStrategy.objective_function` (lines 160-178).
The candidate periods are the already-truncated `int(params[i])` values.
The body after the guard — generate signals, compute returns and metrics,
return `-sharpe`, with any exception mapped to `+np.inf` — is abstracted as
the `pipeline` argument (`Except.ok sharpe` for a successful scoring,
`Except.error ()` for a raised exception); the theorems quantify over it,
which expresses that the guard short-circuits before the pipeline runs. -/
def objective_function (fast_period slow_period signal_period : Int)
    (pipeline : Except Unit ℚ) : Score :=
  if slow_period ≤ fast_period ∨ fast_period < 1 ∨ signal_period < 1 then
    Score.negInf
  else
    match pipeline with
    | Except.ok sharpe => Score.finite (-sharpe)
    | Except.error _ => Score.posInf

/-- Embedding of the `objective` closure inside
`EnhancedMACDETFStrategy.OptimizeETFParameters`
(`QuantConnect_Enhanced_MACD_Strategy.py`, lines 351-371): an infeasible
candidate (`fast >= slow`) returns `-1000`; an empty return list or a zero
standard deviation in the pipeline also returns `-1000`; otherwise the
score is the negated Sharpe ratio. -/
def OptimizeETF_objective (fast slow : Int) (pipeline : Except Unit ℚ) : ℚ :=
  if slow ≤ fast then -1000
  else
    match pipeline with
    | Except.ok sharpe => -sharpe
    | Except.error _ => -1000

/-- C1 (code bug): on an infeasible candidate (here `fast = 12 ≥ slow = 10`)
`objective_function` does short-circuit without consulting the pipeline, but
it returns `-np.inf` — the least element of the minimizer's order, i.e. the
*best* possible score — instead of the worst one (`+np.inf`, which the same
function correctly returns for in-pipeline exceptions); the multi-asset
`objective` likewise returns the attractive score `-1000`. -/
theorem infeasible_candidate_gets_best_score :
    (∀ p : Except Unit ℚ, objective_function 12 10 9 p = Score.negInf) ∧
    (∀ s : Score, Score.leb Score.negInf s = true) ∧
    Score.negInf ≠ Score.posInf ∧
    (∀ p : Except Unit ℚ, OptimizeETF_objective 12 10 p = -1000) := by
  refine ⟨?_, ?_, by simp, ?_⟩
  · intro p; norm_num [objective_function]
  · intro s; cases s <;> rfl
  · intro p; norm_num [OptimizeETF_objective]

/-- Python `range(0, stop, step)` over `Nat` for `step > 0` (empty when
`stop = 0`; the source's Python `stop` is `len - ow - tw`, whose negative
values coincide with the truncated `Nat` subtraction giving `0`). -/
def pyRange (stop step : Nat) : List Nat :=
  (List.range ((stop + step - 1) / step)).map (· * step)

/-- One iteration of the `walk_forward_analysis` loop: the optimization
window `[opt_start, opt_end)` and the test window `[test_start, test_end)`. -/
structure WfWindow where
  opt_start : Nat
  opt_end : Nat
  test_start : Nat
  test_end : Nat
deriving Repr, DecidableEq

/-- Window geometry of `EnhancedMACDStrategy.walk_forward_analysis` (lines
215-255): for each `start_idx in range(0, n - ow - tw, tw)` the optimization
window is `[start_idx, start_idx + ow)` and the test window is
`[start_idx + ow, min(start_idx + ow + tw, n))`. -/
def walk_forward_windows (n ow tw : Nat) : List WfWindow :=
  (pyRange (n - ow - tw) tw).map fun s =>
    { opt_start := s, opt_end := s + ow, test_start := s + ow,
      test_end := min (s + ow + tw) n }

theorem lt_ceil_div_iff (N tw i : Nat) (h : 0 < tw) :
    i < (N + tw - 1) / tw ↔ i * tw < N := by
  rw [Nat.lt_iff_add_one_le, Nat.le_div_iff_mul_le h,
    show (i + 1) * tw = i * tw + tw from by ring]
  generalize i * tw = a
  omega

theorem length_walk_forward_windows (n ow tw : Nat) :
    (walk_forward_windows n ow tw).length = (n - ow - tw + tw - 1) / tw := by
  simp [walk_forward_windows, pyRange]

theorem walk_forward_windows_getElem? (n ow tw : Nat) (i : Nat)
    (hi : i < (walk_forward_windows n ow tw).length) :
    (walk_forward_windows n ow tw)[i]? =
      some { opt_start := i * tw, opt_end := i * tw + ow,
             test_start := i * tw + ow,
             test_end := min (i * tw + ow + tw) n } := by
  rw [length_walk_forward_windows] at hi
  have hr : i < ((n - ow - tw) + tw - 1) / tw := hi
  simp [walk_forward_windows, pyRange, List.getElem?_map, List.getElem?_range, hr]

/-- Counterexample to C6: with `n = 4`, `ow = 2`, `tw = 2` exactly
`ow + tw = 4` timestamps remain at the start, which is not *fewer* than
`ow + tw`, yet the loop produces no window at all: `range(0, 4 - 2 - 2, 2)`
is empty. -/
theorem walk_forward_stops_one_window_early :
    walk_forward_windows 4 2 2 = [] ∧ 2 + 2 ≤ 4 := by
  constructor
  · rfl
  · norm_num

/-- C6 (amended): for `tw > 0` the walk-forward loop produces windows for
start indices 0, tw, 2·tw, … strictly below `n - ow - tw`; window `i` is
`opt [i·tw, i·tw+ow)`, `test [i·tw+ow, i·tw+ow+tw)`, so each optimization
window ends exactly where its test window begins, test windows are
consecutive and non-overlapping and lie strictly inside the series; the
loop stops as soon as *at most* `ow + tw` timestamps remain (not "fewer
than"): it is empty iff `n ≤ ow + tw`. -/
theorem walk_forward_windows_spec (n ow tw : Nat) (htw : 0 < tw) :
    ((walk_forward_windows n ow tw) = [] ↔ n ≤ ow + tw) ∧
    (∀ i : Nat, i < (walk_forward_windows n ow tw).length →
      ((walk_forward_windows n ow tw)[i]? =
        some { opt_start := i * tw, opt_end := i * tw + ow,
               test_start := i * tw + ow, test_end := i * tw + ow + tw } ∧
        i * tw + ow + tw < n)) ∧
    (∀ i : Nat, i + 1 < (walk_forward_windows n ow tw).length →
      ((walk_forward_windows n ow tw)[i + 1]?).map WfWindow.test_start =
        ((walk_forward_windows n ow tw)[i]?).map WfWindow.test_end) := by
  have hlen := length_walk_forward_windows n ow tw
  have hbound : ∀ i : Nat, i < (walk_forward_windows n ow tw).length →
      i * tw + ow + tw < n := by
    intro i hi
    rw [hlen] at hi
    have := (lt_ceil_div_iff (n - ow - tw) tw i htw).mp hi
    generalize i * tw = a at this ⊢
    omega
  refine ⟨?_, ?_, ?_⟩
  · rw [← List.length_eq_zero, hlen]
    constructor
    · intro h
      by_contra hn
      have h0 : 0 * tw < n - ow - tw := by omega
      have := (lt_ceil_div_iff (n - ow - tw) tw 0 htw).mpr h0
      omega
    · intro h
      by_contra hn
      have hpos : 0 < (n - ow - tw + tw - 1) / tw := by omega
      have := (lt_ceil_div_iff (n - ow - tw) tw 0 htw).mp hpos
      omega
  · intro i hi
    refine ⟨?_, hbound i hi⟩
    rw [walk_forward_windows_getElem? n ow tw i hi]
    have := hbound i hi
    congr 2
    omega
  · intro i hi
    have hi' : i < (walk_forward_windows n ow tw).length := by omega
    rw [walk_forward_windows_getElem? n ow tw i hi',
      walk_forward_windows_getElem? n ow tw (i + 1) hi]
    have h1 := hbound i hi'
    have h2 := hbound (i + 1) hi
    simp only [Option.map_some']
    have e1 : min (i * tw + ow + tw) n = i * tw + ow + tw := by omega
    rw [e1]
    exact congrArg some (by ring)

/-- Witness for `walk_forward_windows_spec` at a concrete input:
`n = 10`, `ow = 3`, `tw = 2` gives a first window `opt [0, 3)`,
`test [3, 5)`, non-empty list. -/
theorem walk_forward_windows_spec_witness :
    ¬ ((10 : Nat) ≤ 3 + 2) ∧
      (walk_forward_windows 10 3 2)[0]? =
        some { opt_start := 0, opt_end := 3, test_start := 3, test_end := 5 } := by
  have h := walk_forward_windows_spec 10 3 2 (by norm_num)
  refine ⟨by norm_num, ?_⟩
  have h0 := (h.2.1 0 (by rw [length_walk_forward_windows]; norm_num)).1
  simpa using h0

/-- Embedding of `EnhancedMACDETFStrategy.CalculatePositionSize`
(`QuantConnect_Enhanced_MACD_Strategy.py`, lines 270-289).  `returns_len` is
`len(etf_data['returns'])`; `volatility` is the annualized volatility
`np.std(recent_returns) * sqrt(252)` of lines 278-279, supplied as a
parameter because its value is irrational over `ℚ` — the function reads it
only through `max`, `min` and division.  With fewer than
`volatility_window` return observations the full `max_position_size` is
returned. -/
def CalculatePositionSize (returns_len : Nat) (volatility : ℚ)
    (volatility_window : Nat) (max_position_size : ℚ) : ℚ :=
  if returns_len < volatility_window then max_position_size
  else
    min (max_position_size * min ((15 / 100) / max volatility (5 / 100)) 2)
      max_position_size

/-- Embedding of `SimplifiedMACDETFStrategy.AdjustForVolatility`
(`QuantConnect_Simple_MACD_ETF.py`, lines 235-251): same inverse-volatility
formula applied to an explicit `base_size`, capped at `max_position_size`. -/
def AdjustForVolatility (returns_len : Nat) (volatility : ℚ)
    (volatility_window : Nat) (base_size max_position_size : ℚ) : ℚ :=
  if returns_len < volatility_window then base_size
  else
    min (base_size * min ((15 / 100) / max volatility (5 / 100)) 2)
      max_position_size

/-- Embedding of `EnhancedMACDETFStrategy.ApplyRiskManagement` (lines
245-268) over an association list of per-symbol signals; `returns_len` and
`volatility` give each symbol's return-window length and computed annualized
volatility (see `CalculatePositionSize`).  When the portfolio drawdown
exceeds `max_drawdown`, every strictly positive signal is zeroed and the
rest pass through; otherwise each nonzero signal is scaled by its position
size. -/
def ApplyRiskManagement {α : Type} (drawdown max_drawdown : ℚ)
    (volatility_window : Nat) (max_position_size : ℚ)
    (returns_len : α → Nat) (volatility : α → ℚ)
    (signals : List (α × ℚ)) : List (α × ℚ) :=
  if drawdown > max_drawdown then
    signals.map fun p => (p.1, if p.2 > 0 then 0 else p.2)
  else
    signals.map fun p =>
      if p.2 ≠ 0 then
        (p.1, p.2 * CalculatePositionSize (returns_len p.1) (volatility p.1)
          volatility_window max_position_size)
      else (p.1, 0)

/-- Embedding of `SimplifiedMACDETFStrategy.ApplyRiskManagement`
(`QuantConnect_Simple_MACD_ETF.py`, lines 196-233): identical drawdown
circuit breaker; otherwise, if no signal is active everything goes to cash,
else each nonzero signal is scaled by `AdjustForVolatility` applied to the
base size `max_position_size`. -/
def simple_ApplyRiskManagement {α : Type} (drawdown max_drawdown : ℚ)
    (volatility_window : Nat) (max_position_size : ℚ)
    (returns_len : α → Nat) (volatility : α → ℚ)
    (signals : List (α × ℚ)) : List (α × ℚ) :=
  if drawdown > max_drawdown then
    signals.map fun p => (p.1, if p.2 > 0 then 0 else p.2)
  else
    let total_signals :=
      ((signals.filter (fun p => p.2 != 0)).map (fun p => |p.2|)).sum
    if total_signals = 0 then
      signals.map fun p => (p.1, 0)
    else
      signals.map fun p =>
        if p.2 ≠ 0 then
          (p.1, p.2 * AdjustForVolatility (returns_len p.1) (volatility p.1)
            volatility_window max_position_size max_position_size)
        else (p.1, 0)

/-- C8: whenever the portfolio drawdown exceeds `max_drawdown`, both risk
overlays map each signal entrywise — every strictly positive (long) signal
becomes `0`, every non-positive (short or flat) signal passes through
unchanged — and preserve the set of symbols (same length, same keys). -/
theorem drawdown_circuit_breaker {α : Type} (drawdown max_drawdown : ℚ)
    (vw : Nat) (maxps : ℚ) (rlen : α → Nat) (vol : α → ℚ)
    (signals : List (α × ℚ)) (h : drawdown > max_drawdown) :
    ((ApplyRiskManagement drawdown max_drawdown vw maxps rlen vol
        signals).length = signals.length) ∧
    ((simple_ApplyRiskManagement drawdown max_drawdown vw maxps rlen vol
        signals).length = signals.length) ∧
    (∀ (i : Nat) (hi : i < signals.length),
      (ApplyRiskManagement drawdown max_drawdown vw maxps rlen vol
          signals)[i]? =
        some ((signals.get ⟨i, hi⟩).1,
          if (signals.get ⟨i, hi⟩).2 > 0 then 0
          else (signals.get ⟨i, hi⟩).2) ∧
      (simple_ApplyRiskManagement drawdown max_drawdown vw maxps rlen vol
          signals)[i]? =
        some ((signals.get ⟨i, hi⟩).1,
          if (signals.get ⟨i, hi⟩).2 > 0 then 0
          else (signals.get ⟨i, hi⟩).2)) := by
  refine ⟨?_, ?_, ?_⟩
  · simp [ApplyRiskManagement, if_pos h]
  · simp [simple_ApplyRiskManagement, if_pos h]
  · intro i hi
    constructor
    · simp only [ApplyRiskManagement, if_pos h, List.getElem?_map,
        List.getElem?_eq_getElem hi, Option.map_some', List.get_eq_getElem]
    · simp only [simple_ApplyRiskManagement, if_pos h, List.getElem?_map,
        List.getElem?_eq_getElem hi, Option.map_some', List.get_eq_getElem]

/-- Witness for `drawdown_circuit_breaker` at a concrete input: with
drawdown `0.20 > max_drawdown = 0.15` the long signal `1/2` of symbol `0`
is zeroed. -/
theorem drawdown_circuit_breaker_witness :
    (ApplyRiskManagement (20 / 100) (15 / 100) 20 (1 / 8) (fun _ : Nat => 0)
        (fun _ => 0) [(0, 1 / 2), (1, -(1 / 4))])[0]? =
      some ((0 : Nat), (0 : ℚ)) := by
  have h := ((drawdown_circuit_breaker (20 / 100) (15 / 100) 20 (1 / 8)
    (fun _ : Nat => 0) (fun _ => 0) [(0, 1 / 2), (1, -(1 / 4))]
    (by norm_num)).2.2 0 (by norm_num)).1
  rw [h]
  norm_num

/-- C9: with at least `volatility_window` return observations, both
per-asset sizing functions compute
`min(maxPositionSize, maxPositionSize * min(baseVol / max(assetVol, volFloor), capMultiplier))`
with `baseVol = 0.15`, `volFloor = 0.05`, `capMultiplier = 2`, and in
particular the size never exceeds `maxPositionSize`. -/
theorem position_size_formula (returns_len : Nat) (volatility : ℚ)
    (vw : Nat) (maxps : ℚ) (h : vw ≤ returns_len) :
    (CalculatePositionSize returns_len volatility vw maxps =
      min maxps (maxps * min ((15 / 100) / max volatility (5 / 100)) 2)) ∧
    (AdjustForVolatility returns_len volatility vw maxps maxps =
      min maxps (maxps * min ((15 / 100) / max volatility (5 / 100)) 2)) ∧
    CalculatePositionSize returns_len volatility vw maxps ≤ maxps ∧
    AdjustForVolatility returns_len volatility vw maxps maxps ≤ maxps := by
  have hne : ¬ (returns_len < vw) := by omega
  have e : CalculatePositionSize returns_len volatility vw maxps =
      min (maxps * min ((15 / 100) / max volatility (5 / 100)) 2) maxps := by
    simp [CalculatePositionSize, hne]
  have e' : AdjustForVolatility returns_len volatility vw maxps maxps =
      min (maxps * min ((15 / 100) / max volatility (5 / 100)) 2) maxps := by
    simp [AdjustForVolatility, hne]
  refine ⟨by rw [e, min_comm], by rw [e', min_comm], ?_, ?_⟩
  · rw [e]; exact min_le_right _ _
  · rw [e']; exact min_le_right _ _

/-- Witness for `position_size_formula` at a concrete input: a high-vol
asset (`vol = 1/2`) with a full 20-observation window is sized to
`min(1/8, 1/8 · min(0.15/0.5, 2)) = 3/80 ≤ 1/8`. -/
theorem position_size_formula_witness :
    CalculatePositionSize 20 (1 / 2) 20 (1 / 8) =
      min (1 / 8 : ℚ) ((1 / 8) * min ((15 / 100) / max (1 / 2) (5 / 100)) 2) ∧
    CalculatePositionSize 20 (1 / 2) 20 (1 / 8) ≤ 1 / 8 :=
  ⟨(position_size_formula 20 (1 / 2) 20 (1 / 8) (le_refl 20)).1,
    (position_size_formula 20 (1 / 2) 20 (1 / 8) (le_refl 20)).2.2.1⟩

end MacdStrategy
